import Mathlib

/-!
Verification development for the EpicSevenArmory screen-detection engine
(`src/backend/SiftMatching`).  The Python modules are shallowly embedded:
floats become exact rationals (`ℚ`, or `ℝ` where a square root occurs),
machine ints become `ℤ`/`ℕ`, fallible code returns `Except`.  External
OpenCV primitives that the repository calls are modelled from their
documented behaviour where a claim depends on them (each such model says
so in its doc comment); everything else is translated line by line from
the Python source.
-/

namespace E7

/-! ## sift_core.py — tunables (lines 30–50) -/

/-- sift_core.py line 32: `MIN_INLIERS = 8` (good-match count threshold). -/
def MIN_INLIERS : ℕ := 8

/-- sift_core.py line 38: `RED_RATIO_CTX_THR = 0.035` (= 35/1000; `mkRat`
is used so that the kernel can evaluate comparisons). -/
def RED_RATIO_CTX_THR : ℚ := mkRat 35 1000

/-- sift_core.py line 41: `SAT_MEAN_ABS_THR = 80`. -/
def SAT_MEAN_ABS_THR : ℚ := 80

/-- sift_core.py line 42: `VAL_MEAN_ABS_THR = 150`. -/
def VAL_MEAN_ABS_THR : ℚ := 150

/-- sift_core.py line 43: `REL_SAT_RATIO_THR = 0.85` (= 85/100). -/
def REL_SAT_RATIO_THR : ℚ := mkRat 85 100

/-- sift_core.py line 47: `BANNED_TM_THRESH = 0.70` (= 70/100). -/
def BANNED_TM_THRESH : ℚ := mkRat 70 100

/-- sift_core.py line 50: `MIN_SCORE_MARGIN = 5.0` (the float is exactly 5). -/
def MIN_SCORE_MARGIN : ℚ := 5

/-! ## sift_core.py — first-pass metrics record (lines 286–290)

One entry of the `metrics` list built in the first pass of
`run_sift_on_rois`: HSV saturation/value means of the portrait crop, the
red-pixel ratio of the context belt and the optional BANNED-text template
score.  The image statistics themselves are produced by OpenCV; the second
pass only reads these four rationals, so the record is the interface
between the two passes. -/

structure Metrics where
  s_mean : ℚ
  v_mean : ℚ
  red_ratio_ctx : ℚ
  banned_text : ℚ
deriving Repr, DecidableEq

instance : Inhabited Metrics := ⟨⟨0, 0, 0, 0⟩⟩

/-- sift_core.py lines 292–294:
`sat_values = [m["s_mean"] for m in metrics]`,
`sat_sorted = sorted(sat_values)`,
`second_lowest = sat_sorted[1] if len(sat_sorted) >= 2 else sat_sorted[0]`.
Python `sorted` is an ascending sort; on the empty list the index `[0]`
would raise, which cannot happen because `load_roi_config` rejects empty
ROI lists, so the empty case returns a junk value `0` here. -/
def secondLowest (sats : List ℚ) : ℚ :=
  match List.insertionSort (· ≤ ·) sats with
  | [] => 0
  | [a] => a
  | _ :: b :: _ => b

/-- sift_core.py lines 304–308: the per-slot suppression decision.
`abs_dim`, `rel_dim`, `dimmed`, `ribbonish`, `banned` exactly as written. -/
def bannedOf (m : Metrics) (second_lowest : ℚ) : Bool :=
  let abs_dim := m.s_mean ≤ SAT_MEAN_ABS_THR ∧ m.v_mean ≤ VAL_MEAN_ABS_THR
  let rel_dim := m.s_mean ≤ REL_SAT_RATIO_THR * second_lowest
  let dimmed := abs_dim ∧ rel_dim
  let ribbonish := RED_RATIO_CTX_THR ≤ m.red_ratio_ctx
  decide (BANNED_TM_THRESH ≤ m.banned_text ∨ (ribbonish ∧ dimmed))

/-! ## sift_core.py — identity matching (lines 146–161, 310–328)

`score_template_vs_roi` recomputes SIFT features of the ROI and counts
Lowe-ratio-accepted matches against one template's descriptors.  The
feature extraction and FLANN matching are OpenCV black boxes; the embedding
keeps their outputs abstract: `RoiFeatures` records whether the ROI yielded
a descriptor matrix (`des_q is None`) and how many keypoints, and each
template variant carries the good-match count `good` that the matcher would
report for this ROI. -/

structure RoiFeatures where
  kp_count : ℕ
  has_des : Bool
deriving Repr, DecidableEq

/-- sift_core.py lines 146–161: returns 0 when
`des_q is None or len(kp_q) < 2`, else the good-match count. -/
def score_template_vs_roi (good : ℕ) (rf : RoiFeatures) : ℕ :=
  if rf.has_des = false ∨ rf.kp_count < 2 then 0 else good

/-- sift_core.py lines 315–319: `v_best = 0`, then
`for des in variants: s = score(...); if s > v_best: v_best = s`. -/
def bestVariant (scores : List ℕ) : ℕ :=
  scores.foldl (fun v s => if v < s then s else v) 0

/-- A catalog (`db`) as the second pass sees it for one ROI: insertion-ordered
hero ids, each with the good-match counts its template variants would score
against this ROI (dict keys are unique, hence the `Nodup` hypotheses on the
theorems below). -/
abbrev Db := List (String × List ℕ)

/-- sift_core.py lines 313–321: collect `(v_best, hero_id)` for every hero
whose best variant reaches `MIN_INLIERS`. -/
def candScores (db : Db) : List (ℕ × String) :=
  db.filterMap fun e =>
    let v := bestVariant e.2
    if MIN_INLIERS ≤ v then some (v, e.1) else none

/-- Python list ordering on `(v_best, hero_id)` tuples, reversed:
`scores.sort(reverse=True)` puts larger scores first and, on equal scores,
the lexicographically larger hero id first. -/
def tupleGE (a b : ℕ × String) : Prop :=
  b.1 < a.1 ∨ (a.1 = b.1 ∧ b.2 ≤ a.2)

instance : DecidableRel tupleGE := fun a b => by
  unfold tupleGE; infer_instance

instance : IsTotal (ℕ × String) tupleGE where
  total a b := by
    rcases lt_trichotomy a.1 b.1 with h | h | h
    · exact Or.inr (Or.inl h)
    · rcases le_total a.2 b.2 with h2 | h2
      · exact Or.inr (Or.inr ⟨h.symm, h2⟩)
      · exact Or.inl (Or.inr ⟨h, h2⟩)
    · exact Or.inl (Or.inl h)

instance : IsTrans (ℕ × String) tupleGE where
  trans a b c hab hbc := by
    rcases hab with h1 | ⟨e1, s1⟩
    · rcases hbc with h2 | ⟨e2, s2⟩
      · exact Or.inl (h2.trans h1)
      · exact Or.inl (e2 ▸ h1)
    · rcases hbc with h2 | ⟨e2, s2⟩
      · exact Or.inl (e1 ▸ h2)
      · exact Or.inr ⟨e1.trans e2, s2.trans s1⟩

/-- sift_core.py line 323: `scores.sort(reverse=True)`.  Python's sort on a
total order is determined by the order alone, so any sorting algorithm is a
faithful model; `insertionSort` is used for its Mathlib lemmas. -/
def rankDesc (l : List (ℕ × String)) : List (ℕ × String) :=
  List.insertionSort tupleGE l

/-- sift_core.py lines 322–328 applied to the ranked score list:
`best_score, best_id = scores[0]`; with a runner-up present,
`margin = best_score - scores[1][0]` and `best_id = None` when
`margin < MIN_SCORE_MARGIN` (the scores are Python ints, the margin is
compared against the float `5.0`, modelled exactly in `ℚ`). -/
def selectTop : List (ℕ × String) → Option String × ℕ
  | [] => (none, 0)
  | [top] => (some top.2, top.1)
  | top :: second :: _ =>
      if ((top.1 : ℚ) - (second.1 : ℚ)) < MIN_SCORE_MARGIN then (none, top.1)
      else (some top.2, top.1)

/-- sift_core.py lines 310–328: `best_id, best_score = None, 0.0`; if any
candidates survive the `MIN_INLIERS` filter, rank them and take the head,
dropping the id on a sub-margin runner-up. -/
def selectBest (db : Db) : Option String × ℕ :=
  selectTop (rankDesc (candScores db))

/-- sift_core.py: a hero catalog entry paired, per variant, with the abstract
good-match count for the ROI under consideration; `selectBestFor` routes the
counts through `score_template_vs_roi` exactly as lines 315–317 do. -/
def selectBestFor (db : Db) (rf : RoiFeatures) : Option String × ℕ :=
  selectBest (db.map fun e => (e.1, e.2.map (fun g => score_template_vs_roi g rf)))

/-! ## sift_core.py — second pass per-slot results (lines 296–344) -/

structure SlotResult where
  slot : ℕ
  best : Option String
  score : ℕ
  banned : Bool
  metrics : Metrics
deriving Repr, DecidableEq

instance : Inhabited SlotResult := ⟨⟨0, none, 0, false, default⟩⟩

/-- sift_core.py lines 297–344, one iteration: the suppression flag from the
slot's metrics and the frame-wide baseline; identity matching only when not
banned (`best_id, best_score = None, 0.0` otherwise). -/
def slotResult (idx : ℕ) (m : Metrics) (second_lowest : ℚ) (db : Db)
    (rf : RoiFeatures) : SlotResult :=
  let banned := bannedOf m second_lowest
  let bs := if banned then ((none : Option String), 0) else selectBestFor db rf
  { slot := idx + 1, best := bs.1, score := bs.2, banned := banned, metrics := m }

/-- sift_core.py lines 292–344: the whole second pass.  `dbOf i` and `rfOf i`
give slot `i`'s abstract matcher inputs (the catalog is shared, but the
good-match counts depend on the slot's pixels). -/
def passResults (ms : List Metrics) (dbOf : ℕ → Db) (rfOf : ℕ → RoiFeatures) :
    List SlotResult :=
  let second := secondLowest (ms.map Metrics.s_mean)
  (List.range ms.length).map fun i =>
    slotResult i (ms.getD i default) second (dbOf i) (rfOf i)

/-! ## window_monitor.py — gate state machine (lines 49–54, 269–272, 351–402) -/

/-- window_monitor.py line 50: `GATE_ENTER = 0.78` (= 78/100). -/
def GATE_ENTER : ℚ := mkRat 78 100

/-- window_monitor.py line 51: `GATE_STAY = 0.70` (= 70/100). -/
def GATE_STAY : ℚ := mkRat 70 100

/-- window_monitor.py line 52: `HIT_REQ = 2`. -/
def HIT_REQ : ℕ := 2

/-- window_monitor.py line 53: `MISS_REQ = 3`. -/
def MISS_REQ : ℕ := 3

/-- window_monitor.py lines 269–271: `hit = 0; miss = 0; triggered = False`
plus the transient trigger flag. -/
structure GateState where
  hit : ℕ
  miss : ℕ
  triggered : Bool
deriving Repr, DecidableEq

def gateIdle : GateState := ⟨0, 0, false⟩

/-- window_monitor.py lines 351–402, the per-frame gate update:
threshold selection (`GATE_STAY if triggered else GATE_ENTER`), hit/miss
bookkeeping, the ENTER transition at `hit >= HIT_REQ`, and the EXIT
transition at `miss >= MISS_REQ` (which also starts the cooldown; the
cooldown clock is outside the score-processing relation). -/
def gateStep (st : GateState) (score : ℚ) : GateState :=
  let thresh := if st.triggered then GATE_STAY else GATE_ENTER
  let hit := if thresh ≤ score then st.hit + 1 else 0
  let miss := if thresh ≤ score then 0 else st.miss + 1
  let trig1 := if st.triggered = false ∧ HIT_REQ ≤ hit then true else st.triggered
  let trig2 := if trig1 = true ∧ MISS_REQ ≤ miss then false else trig1
  ⟨hit, miss, trig2⟩

/-- The gate run from the Idle start state over a list of per-frame scores. -/
def gateRun (scores : List ℚ) : GateState :=
  scores.foldl gateStep gateIdle

/-- Specification-side counter: the length of the maximal trailing run of
scores at or above `GATE_ENTER`, folded in the same direction as the loop. -/
def trailingHits (scores : List ℚ) : ℕ :=
  scores.foldl (fun h s => if GATE_ENTER ≤ s then h + 1 else 0) 0

/-! ## window_monitor.py — ROI scaling (lines 168–176)

`int(round(x * sx))`: Python's `round` rounds half to even (banker's
rounding); `int` of the already-integral float is exact.  The float
products are modelled as exact rationals. -/

/-- Python `round` on a rational value: nearest integer, ties to even. -/
def pyRound (q : ℚ) : ℤ :=
  let f := ⌊q⌋
  let r := q - f
  if r < 1 / 2 then f
  else if 1 / 2 < r then f + 1
  else if f % 2 = 0 then f else f + 1

/-- One coordinate of window_monitor.py lines 172–175: `int(round(c * s))`. -/
def scaleCoord (c : ℤ) (s : ℚ) : ℤ := pyRound (c * s)

/-- A calibration rectangle `(x, y, w, h)` of Python ints. -/
abbrev Rect := ℤ × ℤ × ℤ × ℤ

/-- One rectangle of window_monitor.py lines 168–176:
`sx = cur_w / float(base_w)`, `sy = cur_h / float(base_h)`, each coordinate
scaled and rounded independently. -/
def scaleRect (r : Rect) (base_w base_h cur_w cur_h : ℕ) : Rect :=
  let sx : ℚ := (cur_w : ℚ) / (base_w : ℚ)
  let sy : ℚ := (cur_h : ℚ) / (base_h : ℚ)
  (scaleCoord r.1 sx, scaleCoord r.2.1 sy, scaleCoord r.2.2.1 sx, scaleCoord r.2.2.2 sy)

/-- window_monitor.py lines 168–176 (identical to detect_once.py lines
14–21): the list comprehension over the ROI list. -/
def scale_rois (rois : List Rect) (base_w base_h cur_w cur_h : ℕ) : List Rect :=
  rois.map fun r => scaleRect r base_w base_h cur_w cur_h

/-! ## calibrate_rois.py (lines 25–28) / sift_core.py `load_roi_config`
(lines 70–76)

The config file is JSON.  `json.dump` followed by `json.load` is the
identity on the object/array/int/string fragment used here, so the
round trip is modelled at the JSON-value level. -/

inductive Json where
  | num (n : ℤ)
  | str (s : String)
  | arr (elems : List Json)
  | obj (fields : List (String × Json))

/-- Python `cfg[key]` on a JSON object: first binding wins (JSON objects
written by `json.dump` from a dict have unique keys). -/
def Json.field (j : Json) (key : String) : Option Json :=
  match j with
  | .obj fields => (fields.find? (fun f => f.1 = key)).map Prod.snd
  | _ => none

/-- calibrate_rois.py lines 25–27:
`cfg = {"screen_path": args.screen, "rois": rois}` with each ROI the list
`[int(x), int(y), int(w), int(h)]`, then `json.dump(cfg, f)`. -/
def writeRoiConfig (screen_path : String) (rois : List Rect) : Json :=
  .obj [("screen_path", .str screen_path),
        ("rois", .arr (rois.map fun r =>
          .arr [.num r.1, .num r.2.1, .num r.2.2.1, .num r.2.2.2]))]

/-- Decode one element of `cfg["rois"]` the way `tuple(r)` consumes it: a
JSON array of four ints (the only shape the writer produces; any other
shape is a decode error in the model). -/
def decodeRect (j : Json) : Except String Rect :=
  match j with
  | .arr [.num a, .num b, .num c, .num d] => .ok (a, b, c, d)
  | _ => .error "roi entry is not a list of four ints"

/-- sift_core.py lines 70–76: `cfg = json.load(f)`;
`rois = [tuple(r) for r in cfg["rois"]]`;
`if not rois: raise RuntimeError("No ROIs found in config/roi_config.json")`. -/
def load_roi_config (cfg : Json) : Except String (List Rect) :=
  match cfg.field "rois" with
  | some (.arr elems) =>
      match elems.mapM decodeRect with
      | .ok rois =>
          if rois.isEmpty then
            .error "RuntimeError: No ROIs found in config/roi_config.json"
          else .ok rois
      | .error e => .error e
  | some _ => .error "rois field is not a list"
  | none => .error "KeyError: rois"

/-! ## sift_core.py — first pass over the ROI crops (lines 278–290)

The first pass crops each ROI out of the frame and computes image
statistics.  The pixel statistics themselves are abstracted into the
`Frame` record (they are OpenCV reductions of the pixel data), but the
*shape* behaviour is modelled exactly: numpy slicing `img[y:y+h, x:x+w]`
clips to the image bounds, and `cv2.cvtColor`, the first OpenCV call of
`sat_val_means` (sift_core.py line 203), is modelled from its documented
behaviour: it raises `cv2.error` (assertion `!_src.empty()`) when the
input image is empty. -/

/-- An ROI as the first pass consumes it (nonnegative calibration pixels). -/
abbrev NRect := ℕ × ℕ × ℕ × ℕ

/-- A captured frame: its pixel dimensions plus abstract per-crop statistics
(saturation mean, value mean, belt red ratio, belt text-match score), one
value for each crop rectangle. -/
structure Frame where
  height : ℕ
  width : ℕ
  satMean : NRect → ℚ
  valMean : NRect → ℚ
  beltRed : NRect → ℚ
  beltText : NRect → ℚ

/-- numpy `img[y:y+h, x:x+w]` crop shape: rows and columns clip at the
frame bounds (empty when the start index is past the end). -/
def cropShape (fr : Frame) (r : NRect) : ℕ × ℕ :=
  (min r.2.2.2 (fr.height - r.2.1), min r.2.2.1 (fr.width - r.1))

/-- sift_core.py lines 198–204 `sat_val_means`, with the `cv2.cvtColor`
empty-input assertion modelled (OpenCV: error `!_src.empty()`); on a
non-empty crop it returns the (abstract) HSV channel means. -/
def sat_val_means (fr : Frame) (r : NRect) : Except String (ℚ × ℚ) :=
  let shape := cropShape fr r
  if shape.1 = 0 ∨ shape.2 = 0 then
    .error "cv2.error: -215 Assertion failed, src is empty, in cvtColor"
  else
    .ok (fr.satMean r, fr.valMean r)

/-- sift_core.py lines 166–181 `right_belt`: the belt is
`full[y0:y1, x0:x1]` with `x0 = x + w`, `x1 = min(W, int(x + w + 0.6 * w))`,
`y0 = max(0, int(y - 0.2 * h))`, `y1 = min(H, int(y + 1.2 * h))`; the
function returns `None` when `x0 >= x1 or y0 >= y1`.  Python `int` on a
nonnegative float truncates toward zero, i.e. takes the floor. -/
def right_belt_isSome (fr : Frame) (r : NRect) : Bool :=
  let x := (r.1 : ℚ); let y := (r.2.1 : ℚ)
  let w := (r.2.2.1 : ℚ); let h := (r.2.2.2 : ℚ)
  let x0 : ℤ := r.1 + r.2.2.1
  let x1 : ℤ := min (fr.width : ℤ) ⌊x + w + (6 / 10) * w⌋
  let y0 : ℤ := max 0 ⌊y - (2 / 10) * h⌋
  let y1 : ℤ := min (fr.height : ℤ) ⌊y + (1 + 2 / 10) * h⌋
  decide (x0 < x1 ∧ y0 < y1)

/-- sift_core.py lines 278–290, one iteration of the first-pass loop:
`sat_val_means` on the crop (which raises on an empty crop), then the belt
statistics (`0.0` when the belt is `None`; `hasBannedTmpl` records whether
the optional `config/banned.png` template was loaded). -/
def pass1Slot (fr : Frame) (hasBannedTmpl : Bool) (r : NRect) :
    Except String Metrics := do
  let sv ← sat_val_means fr r
  let beltSome := right_belt_isSome fr r
  let rr := if beltSome then fr.beltRed r else 0
  let tscore := if beltSome ∧ hasBannedTmpl then fr.beltText r else 0
  .ok { s_mean := sv.1, v_mean := sv.2, red_ratio_ctx := rr, banned_text := tscore }

/-- sift_core.py lines 278–290: the first pass over all ROIs; any raised
`cv2.error` aborts the whole detection pass (it propagates out of
`run_sift_on_rois` to the caller). -/
def pass1 (fr : Frame) (hasBannedTmpl : Bool) (rois : List NRect) :
    Except String (List Metrics) :=
  rois.mapM (pass1Slot fr hasBannedTmpl)

/-- sift_core.py `run_sift_on_rois`, both passes chained: the first pass
either raises or feeds the metrics into the second pass. -/
def run_sift_on_rois (fr : Frame) (hasBannedTmpl : Bool) (rois : List NRect)
    (dbOf : ℕ → Db) (rfOf : ℕ → RoiFeatures) : Except String (List SlotResult) := do
  let ms ← pass1 fr hasBannedTmpl rois
  .ok (passResults ms dbOf rfOf)

/-! ## window_monitor.py — the `detected` event (lines 373–389)

`clean` collects `r["best"]` over results that are not banned and have a
truthy `best`; `banned` is the first `r["best"]` among results that are
banned *and* have a truthy `best` (`next(..., None)`).  Python truthiness
of the `best` field: `None` and the empty string are falsy. -/

def bestTruthy (o : Option String) : Bool :=
  match o with
  | none => false
  | some s => s ≠ ""

/-- window_monitor.py lines 380–384: the `banned` field of the `detected`
event. -/
def detectBannedField (results : List SlotResult) : Option String :=
  (results.find? fun r => r.banned ∧ bestTruthy r.best).bind SlotResult.best

/-- window_monitor.py lines 376–379: the `clean` field of the `detected`
event (first four unbanned truthy ids). -/
def detectCleanField (results : List SlotResult) : List String :=
  ((results.filter fun r => r.banned = false ∧ bestTruthy r.best).filterMap
    SlotResult.best).take 4

/-! ## window_monitor.py — `gate_score` (lines 179–203)

`gate_score` converts the captured window to grayscale, scales the anchor
template by the per-axis window/base ratios, and template-matches with
`cv2.TM_CCOEFF_NORMED` (unit_scanner.py lines 146–166 `anchor_score` is the
same computation).  The embedding works on the grayscale matrices directly
(`cv2.cvtColor` BGR→gray is a fixed per-pixel reweighting that neither the
scaling geometry nor the score range depends on).  The two OpenCV
primitives the function calls are modelled from their documented
behaviour: `cv2.resize` with `INTER_LINEAR` samples the source at
`(dst + 1/2) · src/dst − 1/2` with bilinear weights and replicated
borders, and `TM_CCOEFF_NORMED` computes, for every template-sized window
position, the zero-mean normalized cross-correlation
`Σ T'·P' / sqrt(Σ T'² · Σ P'²)` where `T' = T − mean T`,
`P' = P − mean P`.  Pixels are exact rationals; the correlation value
lives in `ℝ` because of the square root. -/

/-- A grayscale image as a list of pixel rows. -/
abbrev Mat := List (List ℚ)

def matRows (m : Mat) : ℕ := m.length

def matCols (m : Mat) : ℕ := (m.headD []).length

/-- Pixel access with replicated (clamped) borders, as OpenCV uses at the
edges during bilinear interpolation. -/
def pxC (m : Mat) (r c : ℤ) : ℚ :=
  let row := m.getD (max 0 (min ((m.length : ℤ) - 1) r)).toNat []
  row.getD (max 0 (min ((row.length : ℤ) - 1) c)).toNat 0

/-- `cv2.resize(src, (newW, newH), interpolation=INTER_LINEAR)`, modelled
from its documented sampling. -/
def resizeBilinear (src : Mat) (newW newH : ℕ) : Mat :=
  (List.range newH).map fun (i : ℕ) =>
    (List.range newW).map fun (j : ℕ) =>
      let fy : ℚ := ((i : ℚ) + 1 / 2) * (matRows src : ℚ) / (newH : ℚ) - 1 / 2
      let fx : ℚ := ((j : ℚ) + 1 / 2) * (matCols src : ℚ) / (newW : ℚ) - 1 / 2
      let y0 := ⌊fy⌋
      let x0 := ⌊fx⌋
      let dy := fy - y0
      let dx := fx - x0
      (1 - dy) * (1 - dx) * pxC src y0 x0 + (1 - dy) * dx * pxC src y0 (x0 + 1) +
        dy * (1 - dx) * pxC src (y0 + 1) x0 + dy * dx * pxC src (y0 + 1) (x0 + 1)

/-- The template-sized window of the image at offset `(r, c)`. -/
def matSub (m : Mat) (r c h w : ℕ) : Mat :=
  ((m.drop r).take h).map fun row => (row.drop c).take w

/-- Pixel values of a matrix, flattened row-major and recentered around
their mean (the `T − mean T` / `P − mean P` of `TM_CCOEFF_NORMED`), as
reals. -/
noncomputable def centered (m : Mat) : List ℝ :=
  let vals := m.flatten.map fun q => (q : ℝ)
  vals.map fun v => v - vals.sum / (vals.length : ℝ)

/-- One entry of the `TM_CCOEFF_NORMED` result matrix: the zero-mean
normalized cross-correlation of the template against the window patch at
offset `(r, c)`. -/
noncomputable def tmEntry (win tmpl : Mat) (r c : ℕ) : ℝ :=
  let tc := centered tmpl
  let pc := centered (matSub win r c (matRows tmpl) (matCols tmpl))
  (List.zipWith (· * ·) tc pc).sum /
    Real.sqrt ((tc.map fun v => v ^ 2).sum * (pc.map fun v => v ^ 2).sum)

/-- `cv2.matchTemplate(win, tmpl, cv2.TM_CCOEFF_NORMED)`: one correlation
value for every template-sized window position. -/
noncomputable def tmCcoeffNormed (win tmpl : Mat) : List (List ℝ) :=
  (List.range (matRows win - matRows tmpl + 1)).map fun r =>
    (List.range (matCols win - matCols tmpl + 1)).map fun c =>
      tmEntry win tmpl r c

/-- numpy `result.max()` (0 on an empty result matrix, which the guarded
call site never produces). -/
noncomputable def matMaxR (m : List (List ℝ)) : ℝ :=
  match m.flatten with
  | [] => 0
  | a :: t => t.foldl max a

/-- window_monitor.py lines 188–191:
`new_aw = max(1, int(round(aw * sx)))` with `sx = win_w / float(base_w)`. -/
def scaledW (win anchor : Mat) (base_w : ℕ) : ℕ :=
  (max 1 (pyRound ((matCols anchor : ℚ) * ((matCols win : ℚ) / (base_w : ℚ))))).toNat

/-- window_monitor.py lines 188–192:
`new_ah = max(1, int(round(ah * sy)))` with `sy = win_h / float(base_h)`. -/
def scaledH (win anchor : Mat) (base_h : ℕ) : ℕ :=
  (max 1 (pyRound ((matRows anchor : ℚ) * ((matRows win : ℚ) / (base_h : ℚ))))).toNat

/-- window_monitor.py lines 194–195: the anchor resized to the scaled
dimensions. -/
def scaledAnchor (win anchor : Mat) (base_w base_h : ℕ) : Mat :=
  resizeBilinear anchor (scaledW win anchor base_w) (scaledH win anchor base_h)

/-- window_monitor.py lines 179–203 `gate_score`: 0 when the scaled anchor
exceeds the window in either dimension (lines 198–200), else the peak
`TM_CCOEFF_NORMED` score of the scaled anchor over the full window. -/
noncomputable def gate_score (win anchor : Mat) (base_w base_h : ℕ) : ℝ :=
  let scaled := scaledAnchor win anchor base_w base_h
  if matRows win < matRows scaled ∨ matCols win < matCols scaled then 0
  else matMaxR (tmCcoeffNormed win scaled)

/-! ## Theorems -/

/-! ## Helper lemmas -/

theorem passResults_length (ms : List Metrics) (dbOf : ℕ → Db)
    (rfOf : ℕ → RoiFeatures) : (passResults ms dbOf rfOf).length = ms.length := by
  simp [passResults]

theorem passResults_getD (ms : List Metrics) (dbOf : ℕ → Db)
    (rfOf : ℕ → RoiFeatures) (i : ℕ) (hi : i < ms.length) :
    (passResults ms dbOf rfOf).getD i default =
      slotResult i (ms.getD i default) (secondLowest (ms.map Metrics.s_mean))
        (dbOf i) (rfOf i) := by
  have hlen : i < (passResults ms dbOf rfOf).length := by
    rw [passResults_length]; exact hi
  rw [List.getD_eq_getElem _ _ hlen]
  simp [passResults]

theorem slotResult_banned (idx : ℕ) (m : Metrics) (sl : ℚ) (db : Db)
    (rf : RoiFeatures) : (slotResult idx m sl db rf).banned = bannedOf m sl := rfl

theorem slotResult_best_of_banned (idx : ℕ) (m : Metrics) (sl : ℚ) (db : Db)
    (rf : RoiFeatures) (h : bannedOf m sl = true) :
    (slotResult idx m sl db rf).best = none := by
  simp [slotResult, h]

/-- Claim C3: for every slot of a detection pass, the suppressed (`banned`)
flag holds exactly when the text score clears `BANNED_TM_THRESH`, or the
context red ratio clears `RED_RATIO_CTX_THR` while the slot is dimmed both
absolutely (saturation and value means below their absolute thresholds) and
relatively (saturation mean at most `REL_SAT_RATIO_THR` times the
second-lowest saturation mean of the frame). -/
theorem C3_suppressed_flag (ms : List Metrics) (dbOf : ℕ → Db)
    (rfOf : ℕ → RoiFeatures) (i : ℕ) (hi : i < ms.length) :
    ((passResults ms dbOf rfOf).getD i default).banned = true ↔
      (BANNED_TM_THRESH ≤ (ms.getD i default).banned_text ∨
        (RED_RATIO_CTX_THR ≤ (ms.getD i default).red_ratio_ctx ∧
          (ms.getD i default).s_mean ≤ SAT_MEAN_ABS_THR ∧
          (ms.getD i default).v_mean ≤ VAL_MEAN_ABS_THR ∧
          (ms.getD i default).s_mean ≤
            REL_SAT_RATIO_THR * secondLowest (ms.map Metrics.s_mean))) := by
  rw [passResults_getD ms dbOf rfOf i hi, slotResult_banned, bannedOf,
    decide_eq_true_iff]
  tauto

/-- Witness for C3 at a concrete one-slot pass whose metrics satisfy the
ribbon-and-dimming arm. -/
theorem C3_suppressed_flag_witness :
    0 < ([⟨40, 100, 1/10, 0⟩] : List Metrics).length ∧
    (((passResults [⟨40, 100, 1/10, 0⟩] (fun _ => []) (fun _ => ⟨0, false⟩)).getD
        0 default).banned = true ↔
      (BANNED_TM_THRESH ≤ (([⟨40, 100, 1/10, 0⟩] : List Metrics).getD 0 default).banned_text ∨
        (RED_RATIO_CTX_THR ≤ (([⟨40, 100, 1/10, 0⟩] : List Metrics).getD 0 default).red_ratio_ctx ∧
          (([⟨40, 100, 1/10, 0⟩] : List Metrics).getD 0 default).s_mean ≤ SAT_MEAN_ABS_THR ∧
          (([⟨40, 100, 1/10, 0⟩] : List Metrics).getD 0 default).v_mean ≤ VAL_MEAN_ABS_THR ∧
          (([⟨40, 100, 1/10, 0⟩] : List Metrics).getD 0 default).s_mean ≤
            REL_SAT_RATIO_THR * secondLowest (([⟨40, 100, 1/10, 0⟩] : List Metrics).map Metrics.s_mean)))) :=
  ⟨by decide,
    C3_suppressed_flag [⟨40, 100, 1/10, 0⟩] (fun _ => []) (fun _ => ⟨0, false⟩) 0 (by decide)⟩

/-- Claim C4: for a frame with at least two slots, the relative baseline is
the second-smallest saturation mean — the minimum of the list after one
smallest element is removed — and for a single-slot frame it is that single
value; in both cases the computation is total (no fault). -/
theorem C4_second_lowest (l : List ℚ) (hne : l ≠ []) :
    (l.length = 1 → secondLowest l = l.headI) ∧
    (2 ≤ l.length →
      ∃ m, m ∈ l ∧ (∀ x ∈ l, m ≤ x) ∧
        secondLowest l ∈ l.erase m ∧ ∀ x ∈ l.erase m, secondLowest l ≤ x) := by
  constructor
  · intro h1
    match l, h1 with
    | [a], _ => simp [secondLowest, List.insertionSort]
  · intro h2
    have hp : List.Perm (List.insertionSort (· ≤ ·) l) l := List.perm_insertionSort _ l
    have hs : List.Sorted (· ≤ ·) (List.insertionSort (· ≤ ·) l) :=
      List.sorted_insertionSort _ l
    have hlen : 2 ≤ (List.insertionSort (· ≤ ·) l).length := by
      rw [List.length_insertionSort]; exact h2
    match hsort : List.insertionSort (· ≤ ·) l, hlen with
    | a :: b :: t, _ =>
      rw [hsort] at hp hs
      have hsl : secondLowest l = b := by
        rw [secondLowest, hsort]
      refine ⟨a, ?_, ?_, ?_, ?_⟩
      · exact hp.mem_iff.mp (by simp)
      · intro x hx
        have hx' : x ∈ a :: b :: t := hp.mem_iff.mpr hx
        rcases List.mem_cons.mp hx' with rfl | hx2
        · exact le_refl _
        · exact List.rel_of_sorted_cons hs _ hx2
      · have he : List.Perm ((a :: b :: t).erase a) (l.erase a) := hp.erase a
        rw [List.erase_cons_head] at he
        rw [hsl]
        exact he.mem_iff.mp (by simp)
      · intro x hx
        have he : List.Perm ((a :: b :: t).erase a) (l.erase a) := hp.erase a
        rw [List.erase_cons_head] at he
        have hx' : x ∈ b :: t := he.mem_iff.mpr hx
        rw [hsl]
        rcases List.mem_cons.mp hx' with rfl | hx2
        · exact le_refl _
        · exact List.rel_of_sorted_cons hs.of_cons _ hx2

/-- Witness for C4 at the three-slot saturation list `[3, 1, 2]`. -/
theorem C4_second_lowest_witness :
    ([3, 1, 2] : List ℚ) ≠ [] ∧
    ((([3, 1, 2] : List ℚ).length = 1 → secondLowest [3, 1, 2] = ([3, 1, 2] : List ℚ).headI) ∧
      (2 ≤ ([3, 1, 2] : List ℚ).length →
        ∃ m, m ∈ ([3, 1, 2] : List ℚ) ∧ (∀ x ∈ ([3, 1, 2] : List ℚ), m ≤ x) ∧
          secondLowest [3, 1, 2] ∈ ([3, 1, 2] : List ℚ).erase m ∧
          ∀ x ∈ ([3, 1, 2] : List ℚ).erase m, secondLowest [3, 1, 2] ≤ x)) :=
  ⟨by decide, C4_second_lowest [3, 1, 2] (by decide)⟩

/-- Claim C8: a region that yields no usable descriptors (`des_q is None` or
fewer than two keypoints) makes every template score zero, so no catalog
entry survives the `MIN_INLIERS` filter and the matcher returns the
unresolved pair `(None, 0)` instead of raising. -/
theorem C8_no_descriptors (db : Db) (rf : RoiFeatures)
    (h : rf.has_des = false ∨ rf.kp_count < 2) :
    selectBestFor db rf = (none, 0) := by
  have hscore : ∀ g : ℕ, score_template_vs_roi g rf = 0 := by
    intro g; simp [score_template_vs_roi, h]
  have hbv : ∀ gs : List ℕ, bestVariant (gs.map fun g => score_template_vs_roi g rf) = 0 := by
    intro gs
    induction gs with
    | nil => rfl
    | cons g gs ih => simp [bestVariant, hscore] at ih ⊢; simpa [List.foldl] using ih
  have hcand : candScores (db.map fun e => (e.1, e.2.map fun g => score_template_vs_roi g rf)) = [] := by
    rw [candScores, List.filterMap_eq_nil_iff]
    intro e he
    rcases List.mem_map.mp he with ⟨e', _, rfl⟩
    simp only [hbv]
    rw [if_neg]
    decide
  rw [selectBestFor, selectBest, hcand]
  rfl

/-- Witness for C8: one keypoint only. -/
theorem C8_no_descriptors_witness :
    ((⟨1, true⟩ : RoiFeatures).has_des = false ∨ (⟨1, true⟩ : RoiFeatures).kp_count < 2) ∧
    selectBestFor [("krau", [12])] ⟨1, true⟩ = (none, 0) :=
  ⟨by decide, C8_no_descriptors [("krau", [12])] ⟨1, true⟩ (by decide)⟩

theorem mem_candScores {db : Db} {p : ℕ × String} :
    p ∈ candScores db ↔
      ∃ e ∈ db, e.1 = p.2 ∧ bestVariant e.2 = p.1 ∧ MIN_INLIERS ≤ p.1 := by
  rw [candScores, List.mem_filterMap]
  constructor
  · rintro ⟨e, he, hf⟩
    simp only at hf
    by_cases h : MIN_INLIERS ≤ bestVariant e.2
    · rw [if_pos h] at hf
      injection hf with hf
      subst hf
      exact ⟨e, he, rfl, rfl, h⟩
    · rw [if_neg h] at hf; cases hf
  · rintro ⟨e, he, h1, h2, h3⟩
    refine ⟨e, he, ?_⟩
    simp only
    rw [if_pos (h2 ▸ h3)]
    rw [h1, h2]

theorem rankDesc_sorted (l : List (ℕ × String)) :
    List.Sorted tupleGE (rankDesc l) :=
  List.sorted_insertionSort tupleGE l

theorem rankDesc_perm (l : List (ℕ × String)) :
    List.Perm (rankDesc l) l :=
  List.perm_insertionSort tupleGE l

theorem rankDesc_sorted_scores (l : List (ℕ × String)) :
    List.Sorted (fun a b : ℕ × String => b.1 ≤ a.1) (rankDesc l) :=
  (rankDesc_sorted l).imp (fun h => by
    rcases h with h | ⟨h, _⟩
    · exact le_of_lt h
    · exact le_of_eq h.symm)

theorem selectBest_fst_some {db : Db} {id : String}
    (h : (selectBest db).1 = some id) :
    ∃ top rest, rankDesc (candScores db) = top :: rest ∧ top.2 = id := by
  rcases hr : rankDesc (candScores db) with _ | ⟨top, _ | ⟨second, rest⟩⟩
  · simp only [selectBest, hr, selectTop] at h
    cases h
  · refine ⟨top, [], rfl, ?_⟩
    simp only [selectBest, hr, selectTop] at h
    exact Option.some.inj h
  · refine ⟨top, second :: rest, rfl, ?_⟩
    simp only [selectBest, hr, selectTop] at h
    split_ifs at h
    exact Option.some.inj h

/-- Claim C2: catalog entries whose best-variant good-match count is below
`MIN_INLIERS` are discarded and can never be the returned id; the surviving
entries are ranked descending by score; with a runner-up present the
top-ranked id is returned exactly when its score beats the runner-up by at
least `MIN_SCORE_MARGIN`, and otherwise the result is `None` although a top
candidate exists. -/
theorem C2_matcher_margin (db : Db) (hnd : (db.map Prod.fst).Nodup) :
    (∀ e ∈ db, bestVariant e.2 < MIN_INLIERS → (selectBest db).1 ≠ some e.1) ∧
    List.Sorted (fun a b : ℕ × String => b.1 ≤ a.1) (rankDesc (candScores db)) ∧
    List.Perm (rankDesc (candScores db)) (candScores db) ∧
    (∀ top second rest, rankDesc (candScores db) = top :: second :: rest →
      (∀ p ∈ candScores db, p.1 ≤ top.1) ∧
      (selectBest db).1 =
        if ((top.1 : ℚ) - (second.1 : ℚ)) < MIN_SCORE_MARGIN then none
        else some top.2) := by
  refine ⟨?_, rankDesc_sorted_scores _, rankDesc_perm _, ?_⟩
  · intro e he hlt hsome
    obtain ⟨top, rest, hr, hid⟩ := selectBest_fst_some hsome
    have htop : top ∈ candScores db :=
      (rankDesc_perm (candScores db)).mem_iff.mp (by rw [hr]; simp)
    obtain ⟨e', he', h1, h2, h3⟩ := mem_candScores.mp htop
    have hee : e' = e :=
      List.inj_on_of_nodup_map hnd he' he (by rw [h1, hid])
    rw [hee] at h2
    rw [h2] at hlt
    exact absurd h3 (by omega)
  · intro top second rest hr
    constructor
    · intro p hp
      have hp' : p ∈ rankDesc (candScores db) :=
        (rankDesc_perm (candScores db)).mem_iff.mpr hp
      rw [hr] at hp'
      rcases List.mem_cons.mp hp' with rfl | hp2
      · exact le_refl _
      · have hs := rankDesc_sorted_scores (candScores db)
        rw [hr] at hs
        exact List.rel_of_sorted_cons hs _ hp2
    · simp only [selectBest, hr, selectTop]
      split_ifs <;> rfl

/-- Witness for C2: a three-entry catalog where the weak entry (7 < 8) is
discarded and the two survivors (12 vs 10) are separated by less than the
margin, so the result is unresolved. -/
theorem C2_matcher_margin_witness :
    (([("alpha", [12, 2]), ("beta", [7]), ("celine", [10])] : Db).map Prod.fst).Nodup ∧
    ((∀ e ∈ ([("alpha", [12, 2]), ("beta", [7]), ("celine", [10])] : Db),
        bestVariant e.2 < MIN_INLIERS →
        (selectBest [("alpha", [12, 2]), ("beta", [7]), ("celine", [10])]).1 ≠ some e.1) ∧
      List.Sorted (fun a b : ℕ × String => b.1 ≤ a.1)
        (rankDesc (candScores [("alpha", [12, 2]), ("beta", [7]), ("celine", [10])])) ∧
      List.Perm (rankDesc (candScores [("alpha", [12, 2]), ("beta", [7]), ("celine", [10])]))
        (candScores [("alpha", [12, 2]), ("beta", [7]), ("celine", [10])]) ∧
      (∀ top second rest,
        rankDesc (candScores [("alpha", [12, 2]), ("beta", [7]), ("celine", [10])]) =
          top :: second :: rest →
        (∀ p ∈ candScores [("alpha", [12, 2]), ("beta", [7]), ("celine", [10])], p.1 ≤ top.1) ∧
        (selectBest [("alpha", [12, 2]), ("beta", [7]), ("celine", [10])]).1 =
          if ((top.1 : ℚ) - (second.1 : ℚ)) < MIN_SCORE_MARGIN then none
          else some top.2)) :=
  ⟨by decide, C2_matcher_margin [("alpha", [12, 2]), ("beta", [7]), ("celine", [10])] (by decide)⟩

/-- Claim C10: the `banned` field of every `detected` event is `None`: a
suppressed slot never runs the identity matcher, so its `best` is `None`,
and the field searches for a slot that is both suppressed and has a truthy
`best`. -/
theorem C10_banned_field_null (ms : List Metrics) (dbOf : ℕ → Db)
    (rfOf : ℕ → RoiFeatures) :
    detectBannedField (passResults ms dbOf rfOf) = none := by
  have hfind : (passResults ms dbOf rfOf).find?
      (fun r => r.banned ∧ bestTruthy r.best) = none := by
    rw [List.find?_eq_none]
    intro r hr
    have hr' : ∃ i, i < ms.length ∧
        slotResult i (ms[i]?.getD default) (secondLowest (List.map Metrics.s_mean ms))
          (dbOf i) (rfOf i) = r := by
      simpa [passResults] using hr
    obtain ⟨i, hi, rfl⟩ := hr'
    by_cases hb : bannedOf (ms[i]?.getD default) (secondLowest (ms.map Metrics.s_mean)) = true
    · have hbest := slotResult_best_of_banned i (ms[i]?.getD default)
        (secondLowest (ms.map Metrics.s_mean)) (dbOf i) (rfOf i) hb
      simp [hbest, bestTruthy]
    · simp [slotResult_banned, hb]
  rw [detectBannedField, hfind]
  rfl

theorem trailingHits_append (p : List ℚ) (s : ℚ) :
    trailingHits (p ++ [s]) =
      if GATE_ENTER ≤ s then trailingHits p + 1 else 0 := by
  simp [trailingHits, List.foldl_append]

theorem gateRun_append (p : List ℚ) (s : ℚ) :
    gateRun (p ++ [s]) = gateStep (gateRun p) s := by
  simp [gateRun, List.foldl_append]

theorem gateStep_idle (st : GateState) (s : ℚ) (h : st.triggered = false) :
    gateStep st s = if GATE_ENTER ≤ s
      then ⟨st.hit + 1, 0, decide (HIT_REQ ≤ st.hit + 1)⟩
      else ⟨0, st.miss + 1, false⟩ := by
  by_cases hs : GATE_ENTER ≤ s
  · rw [if_pos hs]
    by_cases h2 : HIT_REQ ≤ st.hit + 1
    · simp [gateStep, h, hs, h2, MISS_REQ]
    · simp [gateStep, h, hs, h2, MISS_REQ]
  · rw [if_neg hs]
    simp [gateStep, h, hs, HIT_REQ]

theorem trailingHits_ge_iff (p : List ℚ) (k : ℕ) :
    k ≤ trailingHits p ↔
      (k ≤ p.length ∧ ∀ s ∈ p.drop (p.length - k), GATE_ENTER ≤ s) := by
  induction p using List.reverseRecOn generalizing k with
  | nil => cases k <;> simp [trailingHits]
  | append_singleton q s ih =>
    rw [trailingHits_append, List.length_append]
    simp only [List.length_singleton]
    cases k with
    | zero =>
      simp [List.drop_eq_nil_of_le]
    | succ k =>
      have hsub : q.length + 1 - (k + 1) = q.length - k := by omega
      have hdrop : (q ++ [s]).drop (q.length + 1 - (k + 1)) =
          q.drop (q.length - k) ++ [s] := by
        rw [hsub, List.drop_append_of_le_length (by omega)]
      by_cases hq : GATE_ENTER ≤ s
      · rw [if_pos hq, hdrop]
        constructor
        · intro hk
          obtain ⟨h1, h2⟩ := (ih k).mp (by omega)
          refine ⟨by omega, ?_⟩
          intro x hx
          rcases List.mem_append.mp hx with hx | hx
          · exact h2 x hx
          · rw [List.mem_singleton.mp hx]; exact hq
        · rintro ⟨h1, h2⟩
          have hk : k ≤ trailingHits q := (ih k).mpr
            ⟨by omega, fun x hx => h2 x (List.mem_append.mpr (Or.inl hx))⟩
          omega
      · rw [if_neg hq, hdrop]
        constructor
        · intro hk; omega
        · rintro ⟨h1, h2⟩
          exact absurd (h2 s (List.mem_append.mpr (Or.inr (by simp)))) hq

theorem gateRun_idle_hit (p : List ℚ)
    (hidle : ∀ m, m < p.length → (gateRun (p.take m)).triggered = false) :
    (gateRun p).hit = trailingHits p ∧
      ((gateRun p).triggered = true ↔ HIT_REQ ≤ trailingHits p) := by
  induction p using List.reverseRecOn with
  | nil => exact ⟨rfl, by decide⟩
  | append_singleton q s ih =>
    have hq : ∀ m, m < q.length → (gateRun (q.take m)).triggered = false := by
      intro m hm
      have h1 := hidle m (by rw [List.length_append]; simp; omega)
      rwa [List.take_append_of_le_length (le_of_lt hm)] at h1
    have hqfull : (gateRun q).triggered = false := by
      have h1 := hidle q.length (by rw [List.length_append]; simp)
      rwa [List.take_append_of_le_length (le_refl _), List.take_length] at h1
    obtain ⟨ihh, _⟩ := ih hq
    rw [gateRun_append, trailingHits_append, gateStep_idle _ _ hqfull, ihh]
    by_cases hs : GATE_ENTER ≤ s
    · rw [if_pos hs, if_pos hs]
      exact ⟨rfl, by simp⟩
    · rw [if_neg hs, if_neg hs]
      refine ⟨rfl, ?_⟩
      simp [HIT_REQ]

/-- Claim C1: processing a score sequence from the Idle state (hit counter
0, not triggered), as long as the gate has not yet triggered, its hit
counter equals the length of the trailing run of scores at or above
`GATE_ENTER` (so any sub-threshold score resets it to 0), and the gate is
triggered after frame `n` exactly when the last `HIT_REQ` of the first `n`
scores are all at or above `GATE_ENTER`. -/
theorem C1_gate_enter (qs : List ℚ) (n : ℕ) (hn : n ≤ qs.length)
    (hidle : ∀ m, m < n → (gateRun (qs.take m)).triggered = false) :
    ((gateRun (qs.take n)).triggered = true ↔
      (HIT_REQ ≤ n ∧ ∀ s ∈ (qs.take n).drop (n - HIT_REQ), GATE_ENTER ≤ s)) ∧
    (gateRun (qs.take n)).hit = trailingHits (qs.take n) := by
  have hlen : (qs.take n).length = n := by rw [List.length_take]; omega
  have hpre : ∀ m, m < (qs.take n).length →
      (gateRun ((qs.take n).take m)).triggered = false := by
    intro m hm
    rw [hlen] at hm
    rw [List.take_take, min_eq_left (le_of_lt hm)]
    exact hidle m hm
  obtain ⟨hh, ht⟩ := gateRun_idle_hit (qs.take n) hpre
  refine ⟨?_, hh⟩
  rw [ht, trailingHits_ge_iff, hlen]

/-- Witness for C1: the spec's reset example shifted to the source's
thresholds — scores `[0.9, 0.5, 0.9, 0.9]` with `HIT_REQ = 2` trigger on
the 4th sample because the 2nd sample reset the counter to 0. -/
theorem C1_gate_enter_witness :
    4 ≤ ([mkRat 9 10, mkRat 1 2, mkRat 9 10, mkRat 9 10] : List ℚ).length ∧
    (∀ m, m < 4 →
      (gateRun (([mkRat 9 10, mkRat 1 2, mkRat 9 10, mkRat 9 10] : List ℚ).take m)).triggered = false) ∧
    (((gateRun (([mkRat 9 10, mkRat 1 2, mkRat 9 10, mkRat 9 10] : List ℚ).take 4)).triggered = true ↔
      (HIT_REQ ≤ 4 ∧ ∀ s ∈ (([mkRat 9 10, mkRat 1 2, mkRat 9 10, mkRat 9 10] : List ℚ).take 4).drop (4 - HIT_REQ),
        GATE_ENTER ≤ s)) ∧
    (gateRun (([mkRat 9 10, mkRat 1 2, mkRat 9 10, mkRat 9 10] : List ℚ).take 4)).hit =
      trailingHits (([mkRat 9 10, mkRat 1 2, mkRat 9 10, mkRat 9 10] : List ℚ).take 4)) :=
  ⟨by decide, by decide,
    C1_gate_enter [mkRat 9 10, mkRat 1 2, mkRat 9 10, mkRat 9 10] 4 (by decide) (by decide)⟩

theorem pyRound_close (q : ℚ) : |(pyRound q : ℚ) - q| ≤ 1 / 2 := by
  have hf : (⌊q⌋ : ℚ) ≤ q := Int.floor_le q
  have hc : q < ⌊q⌋ + 1 := Int.lt_floor_add_one q
  simp only [pyRound]
  split_ifs with h1 h2 h3
  · rw [abs_le]; constructor <;> linarith
  · rw [abs_le]; push_cast; constructor <;> linarith
  · rw [abs_le]; constructor <;> linarith
  · rw [abs_le]; push_cast
    have : q - ⌊q⌋ = 1 / 2 := le_antisymm (not_lt.mp h2) (not_lt.mp h1)
    constructor <;> linarith

theorem scaleCoord_roundtrip (x : ℤ) (s : ℚ) (hs : 1 ≤ s) :
    |(scaleCoord (scaleCoord x s) s⁻¹ : ℚ) - x| ≤ 1 := by
  have hs0 : 0 < s := lt_of_lt_of_le one_pos hs
  have h1 : |(scaleCoord x s : ℚ) - x * s| ≤ 1 / 2 := pyRound_close (x * s)
  have h2 : |(scaleCoord (scaleCoord x s) s⁻¹ : ℚ) - (scaleCoord x s : ℚ) * s⁻¹| ≤ 1 / 2 :=
    pyRound_close _
  have h3 : |(scaleCoord x s : ℚ) * s⁻¹ - x| ≤ 1 / 2 := by
    have heq : (scaleCoord x s : ℚ) * s⁻¹ - x = ((scaleCoord x s : ℚ) - x * s) * s⁻¹ := by
      field_simp
      ring
    rw [heq, abs_mul, abs_inv, abs_of_pos hs0]
    calc |(scaleCoord x s : ℚ) - x * s| * s⁻¹ ≤ (1 / 2) * s⁻¹ := by
          apply mul_le_mul_of_nonneg_right h1
          positivity
      _ ≤ (1 / 2) * 1 := by
          apply mul_le_mul_of_nonneg_left _ (by norm_num)
          rw [inv_le_one_iff₀]
          right; exact hs
      _ = 1 / 2 := by norm_num
  calc |(scaleCoord (scaleCoord x s) s⁻¹ : ℚ) - x|
      ≤ |(scaleCoord (scaleCoord x s) s⁻¹ : ℚ) - (scaleCoord x s : ℚ) * s⁻¹| +
        |(scaleCoord x s : ℚ) * s⁻¹ - x| := by
        exact abs_sub_le _ _ _
    _ ≤ 1 / 2 + 1 / 2 := add_le_add h2 h3
    _ = 1 := by norm_num

/-- Claim C6 (amended): scaling multiplies each coordinate by the
independent exact factors and rounds to nearest (ties to even), and — when
both scale factors are at least 1, i.e. the current resolution is at least
the calibration resolution on each axis — scaling by `(sx, sy)` and then by
`(1/sx, 1/sy)` reproduces each coordinate to within ±1.  (For factors
below 1 the round trip can lose more than 1 pixel; see the
counterexample.) -/
theorem C6_roi_roundtrip (r : Rect) (bw bh cw ch : ℕ) (hbw : 0 < bw)
    (hbh : 0 < bh) (hw : bw ≤ cw) (hh : bh ≤ ch) :
    scale_rois [r] bw bh cw ch = [scaleRect r bw bh cw ch] ∧
    (|(scaleRect (scaleRect r bw bh cw ch) cw ch bw bh).1 - r.1| ≤ 1 ∧
      |(scaleRect (scaleRect r bw bh cw ch) cw ch bw bh).2.1 - r.2.1| ≤ 1 ∧
      |(scaleRect (scaleRect r bw bh cw ch) cw ch bw bh).2.2.1 - r.2.2.1| ≤ 1 ∧
      |(scaleRect (scaleRect r bw bh cw ch) cw ch bw bh).2.2.2 - r.2.2.2| ≤ 1) := by
  have key : ∀ (x : ℤ) (b c : ℕ), 0 < b → b ≤ c →
      |scaleCoord (scaleCoord x ((c : ℚ) / (b : ℚ))) ((b : ℚ) / (c : ℚ)) - x| ≤ 1 := by
    intro x b c hb hbc
    have hb0 : (0 : ℚ) < (b : ℚ) := by exact_mod_cast hb
    have hc0 : (0 : ℚ) < (c : ℚ) := lt_of_lt_of_le hb0 (by exact_mod_cast hbc)
    have hs1 : 1 ≤ (c : ℚ) / (b : ℚ) := by
      rw [le_div_iff₀ hb0]; simpa using (by exact_mod_cast hbc : (b : ℚ) ≤ (c : ℚ))
    have hinv : (b : ℚ) / (c : ℚ) = ((c : ℚ) / (b : ℚ))⁻¹ := by
      rw [inv_div]
    have hq := scaleCoord_roundtrip x ((c : ℚ) / (b : ℚ)) hs1
    rw [← hinv] at hq
    have : |((scaleCoord (scaleCoord x ((c : ℚ) / (b : ℚ))) ((b : ℚ) / (c : ℚ)) - x : ℤ) : ℚ)| ≤ 1 := by
      push_cast
      exact hq
    exact_mod_cast this
  refine ⟨rfl, ?_, ?_, ?_, ?_⟩
  · exact key r.1 bw cw hbw hw
  · exact key r.2.1 bh ch hbh hh
  · exact key r.2.2.1 bw cw hbw hw
  · exact key r.2.2.2 bh ch hbh hh

/-- Witness for C6 at the spec's own example: base `(1000, 800)`, current
`(2000, 1600)`, rectangle `(100, 100, 50, 50)`. -/
theorem C6_roi_roundtrip_witness :
    (0 < 1000 ∧ 0 < 800 ∧ 1000 ≤ 2000 ∧ 800 ≤ 1600) ∧
    (scale_rois [((100, 100, 50, 50) : Rect)] 1000 800 2000 1600 =
        [scaleRect (100, 100, 50, 50) 1000 800 2000 1600] ∧
      (|(scaleRect (scaleRect (100, 100, 50, 50) 1000 800 2000 1600) 2000 1600 1000 800).1 - (100 : ℤ)| ≤ 1 ∧
        |(scaleRect (scaleRect (100, 100, 50, 50) 1000 800 2000 1600) 2000 1600 1000 800).2.1 - (100 : ℤ)| ≤ 1 ∧
        |(scaleRect (scaleRect (100, 100, 50, 50) 1000 800 2000 1600) 2000 1600 1000 800).2.2.1 - (50 : ℤ)| ≤ 1 ∧
        |(scaleRect (scaleRect (100, 100, 50, 50) 1000 800 2000 1600) 2000 1600 1000 800).2.2.2 - (50 : ℤ)| ≤ 1)) :=
  ⟨⟨by decide, by decide, by decide, by decide⟩,
    C6_roi_roundtrip (100, 100, 50, 50) 1000 800 2000 1600
      (by decide) (by decide) (by decide) (by decide)⟩

/-- Counterexample for C6 as stated: with a downscale factor `sx = 1/10`
(base width 1000, current width 100) the rectangle `(4, 4, 4, 4)` scales to
`(0, 0, 0, 0)`, and scaling back by the inverse factors returns
`(0, 0, 0, 0)`: the x coordinate ends 4 pixels away from the original,
violating the claimed ±1 bound. -/
theorem C6_roi_roundtrip_counterexample :
    scale_rois [((4, 4, 4, 4) : Rect)] 1000 1000 100 100 = [((0, 0, 0, 0) : Rect)] ∧
    scale_rois [((0, 0, 0, 0) : Rect)] 100 100 1000 1000 = [((0, 0, 0, 0) : Rect)] ∧
    ¬ (|(0 : ℤ) - 4| ≤ 1) := by
  have hcoord0 : ∀ s : ℚ, scaleCoord 0 s = 0 := by
    intro s
    simp only [scaleCoord, pyRound]
    norm_num
  have hcoord4 : scaleCoord 4 (((100 : ℕ) : ℚ) / ((1000 : ℕ) : ℚ)) = 0 := by
    simp only [scaleCoord, pyRound]
    norm_num
  refine ⟨?_, ?_, by decide⟩
  · simp only [scale_rois, scaleRect, List.map_cons, List.map_nil]
    rw [hcoord4]
  · simp only [scale_rois, scaleRect, List.map_cons, List.map_nil]
    simp only [hcoord0]

theorem decodeRect_enc (r : Rect) :
    decodeRect (.arr [.num r.1, .num r.2.1, .num r.2.2.1, .num r.2.2.2]) = .ok r :=
  rfl

theorem mapM_loop_decodeRect (rois acc : List Rect) :
    List.mapM.loop decodeRect
        (rois.map fun r =>
          Json.arr [.num r.1, .num r.2.1, .num r.2.2.1, .num r.2.2.2]) acc =
      Except.ok (acc.reverse ++ rois) := by
  induction rois generalizing acc with
  | nil =>
    simp only [List.map_nil, List.mapM.loop, List.append_nil]
    rfl
  | cons r t ih =>
    simp only [List.map_cons, List.mapM.loop, decodeRect_enc]
    show List.mapM.loop decodeRect
        (t.map fun r =>
          Json.arr [.num r.1, .num r.2.1, .num r.2.2.1, .num r.2.2.2]) (r :: acc) =
      Except.ok (acc.reverse ++ r :: t)
    rw [ih (r :: acc)]
    simp

theorem mapM_decodeRect (rois : List Rect) :
    (rois.map fun r =>
      Json.arr [.num r.1, .num r.2.1, .num r.2.2.1, .num r.2.2.2]).mapM decodeRect =
        Except.ok rois := by
  rw [List.mapM, mapM_loop_decodeRect]
  simp

/-- Claim C9 (amended): for every NON-EMPTY ordered list of integer ROI
rectangles, writing the calibration file and re-reading it yields exactly
the written list — each rectangle's four integer components and the order
preserved.  (The empty list round-trips to a `RuntimeError` instead; see
the counterexample.) -/
theorem C9_config_roundtrip (sp : String) (rois : List Rect)
    (hne : rois ≠ []) :
    load_roi_config (writeRoiConfig sp rois) = .ok rois := by
  have hfield : (writeRoiConfig sp rois).field "rois" =
      some (.arr (rois.map fun r =>
        .arr [.num r.1, .num r.2.1, .num r.2.2.1, .num r.2.2.2])) := by
    simp [writeRoiConfig, Json.field, List.find?]
  simp only [load_roi_config, hfield]
  rw [List.mapM, mapM_loop_decodeRect]
  simp [hne]

/-- Witness for C9 at a one-rectangle list. -/
theorem C9_config_roundtrip_witness :
    ([((1, 2, 3, 4) : Rect)] ≠ []) ∧
    load_roi_config (writeRoiConfig "screen.png" [((1, 2, 3, 4) : Rect)]) =
      .ok [((1, 2, 3, 4) : Rect)] :=
  ⟨by decide, C9_config_roundtrip "screen.png" [(1, 2, 3, 4)] (by decide)⟩

/-- Counterexample for C9 as stated: for the empty ROI list (which
calibrate_rois.py writes when the user cancels the first selection),
re-reading raises `RuntimeError` in `load_roi_config` instead of yielding
the written (empty) list. -/
theorem C9_config_roundtrip_counterexample :
    load_roi_config (writeRoiConfig "screen.png" []) =
      .error "RuntimeError: No ROIs found in config/roi_config.json" ∧
    load_roi_config (writeRoiConfig "screen.png" []) ≠
      .ok ([] : List Rect) := by
  have h1 : load_roi_config (writeRoiConfig "screen.png" []) =
      .error "RuntimeError: No ROIs found in config/roi_config.json" := rfl
  refine ⟨h1, ?_⟩
  rw [h1]
  intro h
  cases h

/-- Claim C7, evaluated at a failing input: on a 100×100 frame, the single
degenerate ROI `(x=0, y=0, w=0, h=5)` produces an empty crop, so the first
pass hits the `cv2.cvtColor` empty-input assertion and the whole detection
pass raises (the orchestrator then emits `detection_error`) instead of
treating the slot as "no data" and completing. -/
theorem C7_degenerate_roi_faults :
    pass1 ⟨100, 100, fun _ => 0, fun _ => 0, fun _ => 0, fun _ => 0⟩ false
        [(0, 0, 0, 5)] =
      .error "cv2.error: -215 Assertion failed, src is empty, in cvtColor" ∧
    run_sift_on_rois ⟨100, 100, fun _ => 0, fun _ => 0, fun _ => 0, fun _ => 0⟩ false
        [(0, 0, 0, 5)] (fun _ => []) (fun _ => ⟨0, false⟩) =
      .error "cv2.error: -215 Assertion failed, src is empty, in cvtColor" :=
  ⟨rfl, rfl⟩

theorem sum_sq_nonneg (l : List ℝ) : 0 ≤ (l.map fun v => v ^ 2).sum := by
  apply List.sum_nonneg
  intro x hx
  obtain ⟨y, _, rfl⟩ := List.mem_map.mp hx
  positivity

theorem zipWith_mul_sq_le (a b : List ℝ) :
    ((List.zipWith (· * ·) a b).sum) ^ 2 ≤
      (a.map fun v => v ^ 2).sum * (b.map fun v => v ^ 2).sum := by
  induction a generalizing b with
  | nil => simp
  | cons x xs ih =>
    cases b with
    | nil =>
      simp
    | cons y ys =>
      simp only [List.zipWith_cons_cons, List.sum_cons, List.map_cons]
      have h := ih ys
      have hA := sum_sq_nonneg xs
      have hB := sum_sq_nonneg ys
      set S := (List.zipWith (· * ·) xs ys).sum with hS
      set A := (xs.map fun v => v ^ 2).sum with hA2
      set B := (ys.map fun v => v ^ 2).sum with hB2
      rcases eq_or_lt_of_le hB with hB0 | hBpos
      · have hS2 : S ^ 2 = 0 := by nlinarith [sq_nonneg S]
        have hS0 : S = 0 := by
          exact pow_eq_zero_iff (two_ne_zero) |>.mp hS2
        rw [hS0, ← hB0]
        nlinarith [mul_nonneg hA (sq_nonneg y)]
      · nlinarith [sq_nonneg (x * B - y * S),
          mul_nonneg hB (sub_nonneg.mpr h),
          mul_nonneg (sq_nonneg y) (sub_nonneg.mpr h)]

theorem ncc_abs_le (a b : List ℝ) :
    |(List.zipWith (· * ·) a b).sum /
      Real.sqrt ((a.map fun v => v ^ 2).sum * (b.map fun v => v ^ 2).sum)| ≤ 1 := by
  by_cases h0 : Real.sqrt ((a.map fun v => v ^ 2).sum * (b.map fun v => v ^ 2).sum) = 0
  · rw [h0, div_zero, abs_zero]
    norm_num
  · have hpos : 0 < Real.sqrt ((a.map fun v => v ^ 2).sum * (b.map fun v => v ^ 2).sum) :=
      lt_of_le_of_ne (Real.sqrt_nonneg _) (Ne.symm h0)
    rw [abs_div, abs_of_pos hpos, div_le_one hpos]
    calc |(List.zipWith (· * ·) a b).sum|
        = Real.sqrt (((List.zipWith (· * ·) a b).sum) ^ 2) :=
          (Real.sqrt_sq_eq_abs _).symm
      _ ≤ Real.sqrt ((a.map fun v => v ^ 2).sum * (b.map fun v => v ^ 2).sum) :=
          Real.sqrt_le_sqrt (zipWith_mul_sq_le a b)

theorem tmEntry_abs_le (win tmpl : Mat) (r c : ℕ) :
    |tmEntry win tmpl r c| ≤ 1 := by
  simp only [tmEntry]
  exact ncc_abs_le _ _

theorem foldl_max_le {l : List ℝ} {a c : ℝ} (ha : a ≤ c)
    (h : ∀ x ∈ l, x ≤ c) : l.foldl max a ≤ c := by
  induction l generalizing a with
  | nil => exact ha
  | cons x xs ih =>
    exact ih (max_le ha (h x (by simp))) (fun y hy => h y (by simp [hy]))

theorem le_foldl_max {l : List ℝ} {a c : ℝ} (ha : c ≤ a) :
    c ≤ l.foldl max a := by
  induction l generalizing a with
  | nil => exact ha
  | cons x xs ih =>
    exact ih (le_trans ha (le_max_left a x))

theorem matMaxR_abs_le (m : List (List ℝ)) (h : ∀ x ∈ m.flatten, |x| ≤ 1) :
    |matMaxR m| ≤ 1 := by
  rcases hj : m.flatten with _ | ⟨a, t⟩
  · simp [matMaxR, hj]
  · have hm : matMaxR m = t.foldl max a := by
      rw [matMaxR, hj]
    have ha : |a| ≤ 1 := h a (by rw [hj]; simp)
    have ht : ∀ x ∈ t, |x| ≤ 1 := fun x hx => h x (by rw [hj]; simp [hx])
    rw [hm, abs_le]
    constructor
    · exact le_foldl_max (abs_le.mp ha).1
    · exact foldl_max_le (abs_le.mp ha).2 (fun x hx => (abs_le.mp (ht x hx)).2)

theorem tm_entries_abs_le (win tmpl : Mat) :
    ∀ x ∈ (tmCcoeffNormed win tmpl).flatten, |x| ≤ 1 := by
  intro x hx
  obtain ⟨row, hrow, hxr⟩ := List.mem_flatten.mp hx
  rw [tmCcoeffNormed] at hrow
  obtain ⟨r, _, rfl⟩ := List.mem_map.mp hrow
  obtain ⟨c, _, rfl⟩ := List.mem_map.mp hxr
  exact tmEntry_abs_le win tmpl r c

theorem resizeBilinear_rows (src : Mat) (w h : ℕ) :
    matRows (resizeBilinear src w h) = h := by
  rw [resizeBilinear, matRows, List.length_map, List.length_range]

theorem resizeBilinear_cols (src : Mat) (w h : ℕ) (hh : 0 < h) :
    matCols (resizeBilinear src w h) = w := by
  cases h with
  | zero => omega
  | succ k =>
    rw [resizeBilinear, List.range_succ_eq_map, List.map_cons, matCols]
    rw [List.headD_cons, List.length_map, List.length_range]

theorem scaledH_pos (win anchor : Mat) (bh : ℕ) : 0 < scaledH win anchor bh := by
  rw [scaledH]
  omega

theorem scaledAnchor_rows (win anchor : Mat) (bw bh : ℕ) :
    matRows (scaledAnchor win anchor bw bh) = scaledH win anchor bh :=
  resizeBilinear_rows _ _ _

theorem scaledAnchor_cols (win anchor : Mat) (bw bh : ℕ) :
    matCols (scaledAnchor win anchor bw bh) = scaledW win anchor bw :=
  resizeBilinear_cols _ _ _ (scaledH_pos win anchor bh)

/-- Claim C5 (amended): the gate score always lies in `[-1, 1]` (not
`[0, 1]`: zero-mean normalized cross-correlation can be negative, see the
counterexample); the anchor is resized with per-axis factors
`win_w/base_w` and `win_h/base_h` to `scaledW × scaledH`; and the score is
0 whenever the scaled template exceeds the frame in either dimension, else
the peak correlation of the scaled template over the full frame. -/
theorem C5_gate_score_range (win anchor : Mat) (bw bh : ℕ) :
    (-1 ≤ gate_score win anchor bw bh ∧ gate_score win anchor bw bh ≤ 1) ∧
    (matRows (scaledAnchor win anchor bw bh) = scaledH win anchor bh ∧
      matCols (scaledAnchor win anchor bw bh) = scaledW win anchor bw) ∧
    gate_score win anchor bw bh =
      (if matRows win < matRows (scaledAnchor win anchor bw bh) ∨
          matCols win < matCols (scaledAnchor win anchor bw bh) then 0
        else matMaxR (tmCcoeffNormed win (scaledAnchor win anchor bw bh))) := by
  refine ⟨?_, ⟨scaledAnchor_rows win anchor bw bh, scaledAnchor_cols win anchor bw bh⟩, rfl⟩
  rw [gate_score]
  split_ifs
  · norm_num
  · exact abs_le.mp (matMaxR_abs_le _ (tm_entries_abs_le win (scaledAnchor win anchor bw bh)))

/-- Counterexample for C5 as stated: the gate score is not always in
`[0, 1]`.  For the 1×2 window `[1, 0]`, anchor `[0, 1]` and base size
2×1 the anchor is resized to itself (scale factors 1), and the only
template position is perfectly anti-correlated, so the peak
`TM_CCOEFF_NORMED` score — and hence `gate_score` — is `-1`. -/
theorem C5_gate_score_counterexample :
    gate_score [[1, 0]] [[0, 1]] 2 1 = -1 ∧
    ¬ (0 ≤ gate_score [[1, 0]] [[0, 1]] 2 1) := by
  have hA : scaledAnchor [[(1 : ℚ), 0]] [[(0 : ℚ), 1]] 2 1 = [[0, 1]] := by
    norm_num [scaledAnchor, scaledW, scaledH, matCols, matRows, pyRound,
      resizeBilinear, List.range_succ, pxC,
      show Int.toNat 2 = 2 from rfl, show Int.toNat 1 = 1 from rfl,
      show Int.toNat 0 = 0 from rfl,
      show ((1 : ℤ) ⊓ 0) = 0 from rfl, show ((1 : ℤ) ⊓ 1) = 1 from rfl,
      show ((1 : ℤ) ⊓ 2) = 1 from rfl, show ((0 : ℤ) ⊓ 0) = 0 from rfl,
      show ((0 : ℤ) ⊔ 0) = 0 from rfl, show ((0 : ℤ) ⊔ 1) = 1 from rfl,
      Int.fract_zero, Int.fract_one]
  have hct : centered [[(0 : ℚ), 1]] = [-(1 / 2), 1 / 2] := by
    norm_num [centered, List.flatten]
  have hcp : centered (matSub [[(1 : ℚ), 0]] 0 0 (matRows [[(0 : ℚ), 1]])
      (matCols [[(0 : ℚ), 1]])) = [1 / 2, -(1 / 2)] := by
    norm_num [centered, matSub, matRows, matCols, List.flatten]
  have hE : tmEntry [[(1 : ℚ), 0]] [[(0 : ℚ), 1]] 0 0 = -1 := by
    simp only [tmEntry]
    rw [hct, hcp]
    have hden : ((([-(1 / 2), 1 / 2] : List ℝ).map fun v => v ^ 2).sum *
        (([1 / 2, -(1 / 2)] : List ℝ).map fun v => v ^ 2).sum) = (1 / 2) ^ 2 := by
      norm_num
    rw [hden, Real.sqrt_sq (by norm_num : (0 : ℝ) ≤ 1 / 2)]
    norm_num [List.zipWith]
  have hmain : gate_score [[(1 : ℚ), 0]] [[(0 : ℚ), 1]] 2 1 = -1 := by
    rw [gate_score, hA]
    norm_num [matRows, matCols, tmCcoeffNormed, List.range_succ, hE, matMaxR,
      List.flatten]
  exact ⟨hmain, by rw [hmain]; norm_num⟩

end E7
